import Mathlib

/-!
# Verification of the odali-token-server presence-and-relationship coordinator

Shallow embedding of `src/server.js` (the current variant of the file).

Modelling conventions:
* JS `Map` objects (`users`, `onlineUsers`) are embedded as association
  lists `List (String × α)`; `Map.set` replaces the value in place when the
  key is present (keeping its position) and appends otherwise, `Map.delete`
  removes the entry, exactly as the ECMAScript `Map` semantics prescribe.
* JS `Set` objects (`friends`, `incoming`, `outgoing`) are embedded as
  `List String` with `Set.add` appending when absent and `Set.delete`
  filtering the element out.
* Usernames handed to the handlers are taken after the
  `.trim().toLowerCase()` normalization that each handler performs at its
  boundary; the `!from`-style falsiness guards on the raw strings are kept
  as `= ""` tests on the normalized names.
* `Date.now()` and the random id suffix are nondeterministic inputs; they
  are passed to the handlers as explicit parameters `now : Int` and
  `rnd : String`.
* `saveToDisk` serializes the state to disk; since the claims only concern
  *when* it is invoked, it is embedded as a counter bump on the state.
* Socket `emit` calls change no server state and are omitted.
-/

namespace Odali

/-- Association-list embedding of a JS `Map` with string keys. -/
abbrev SMap (α : Type) := List (String × α)

/-- `Map.prototype.get`. -/
def mapGet {α : Type} : SMap α → String → Option α
  | [], _ => none
  | (k, v) :: rest, n => if k = n then some v else mapGet rest n

/-- `Map.prototype.set`: replace in place when the key exists, append otherwise. -/
def mapSet {α : Type} : SMap α → String → α → SMap α
  | [], n, v => [(n, v)]
  | (k, w) :: rest, n, v => if k = n then (n, v) :: rest else (k, w) :: mapSet rest n v

/-- `Map.prototype.delete`. -/
def mapDel {α : Type} (m : SMap α) (n : String) : SMap α :=
  m.filter (fun p => p.1 ≠ n)

/-- `Map.prototype.has`. -/
def mapHas {α : Type} (m : SMap α) (n : String) : Bool :=
  (mapGet m n).isSome

/-- `Set.prototype.add` on a string set embedded as a list. -/
def setAdd (l : List String) (x : String) : List String :=
  if x ∈ l then l else l ++ [x]

/-- `Set.prototype.delete`. -/
def setDel (l : List String) (x : String) : List String :=
  l.filter (fun y => y ≠ x)

/-- `Set.prototype.has`. -/
def setHas (l : List String) (x : String) : Bool :=
  decide (x ∈ l)

/-- Account record: `{ password, friends:Set, incoming:Set, outgoing:Set }`.
`password: null` is `none`. -/
structure Account where
  password : Option String
  friends : List String
  incoming : List String
  outgoing : List String
deriving DecidableEq, Repr

/-- The record `ensureUser` installs for a previously unseen username. -/
def Account.fresh : Account := ⟨none, [], [], []⟩

/-- The record `POST /register` installs. -/
def Account.registered (pw : String) : Account := ⟨some pw, [], [], []⟩

/-- Chat message `{ id, from, to, text, createdAt }`; the JS fields `from`
and `to` are named `sender` and `recipient` (`from` is a Lean keyword). -/
structure Message where
  id : String
  sender : String
  recipient : String
  text : String
  createdAt : Int
deriving DecidableEq, Repr

/-- The whole mutable server state: `users`, `onlineUsers`, `messages`,
plus a counter of `saveToDisk` invocations (the Persistence Gateway). -/
structure ServerState where
  users : SMap Account
  onlineUsers : SMap Nat
  messages : List Message
  saves : Nat
deriving DecidableEq, Repr

/-- `saveToDisk()`: snapshot to durable storage, embedded as an
invocation count on the state. -/
def saveToDisk (st : ServerState) : ServerState :=
  { st with saves := st.saves + 1 }

/-- `MESSAGE_TTL_MS = 2 * 24 * 60 * 60 * 1000`. -/
def MESSAGE_TTL_MS : Int := 2 * 24 * 60 * 60 * 1000

/-- `cleanupOldMessages()`: keep messages with `createdAt > now - TTL`;
save iff the length changed. -/
def cleanupOldMessages (now : Int) (st : ServerState) : ServerState :=
  let cutoff := now - MESSAGE_TTL_MS
  let kept := st.messages.filter (fun m => decide (m.createdAt > cutoff))
  if kept.length ≠ st.messages.length then
    saveToDisk { st with messages := kept }
  else
    { st with messages := kept }

/-- `ensureUser(username)`: get-or-create on the `users` map (the mutation
part; call sites read the account afterwards with `mapGet`). -/
def ensureUser (users_ : SMap Account) (username : String) : SMap Account :=
  if mapHas users_ username then users_ else mapSet users_ username Account.fresh

/-- Read-modify-write of one account, mirroring a JS in-place mutation of
the object returned by `users.get(name)`. -/
def updAccount (users_ : SMap Account) (n : String) (f : Account → Account) : SMap Account :=
  match mapGet users_ n with
  | some a => mapSet users_ n (f a)
  | none => users_

/-- `user.friends` of account `n`, `[]` when the account is absent
(`Array.from(u.friends)` at the call sites). -/
def friendsOf (users_ : SMap Account) (n : String) : List String :=
  ((mapGet users_ n).map Account.friends).getD []

/-- `user.incoming` of account `n`, `[]` when absent. -/
def incomingOf (users_ : SMap Account) (n : String) : List String :=
  ((mapGet users_ n).map Account.incoming).getD []

/-- `user.outgoing` of account `n`, `[]` when absent. -/
def outgoingOf (users_ : SMap Account) (n : String) : List String :=
  ((mapGet users_ n).map Account.outgoing).getD []

/-- The JS guard `!text || !text.trim()` holds exactly when every character
of `text` is whitespace (including the empty string). -/
def isBlank (s : String) : Bool :=
  s.data.all Char.isWhitespace

/-- `String(text).slice(0, 2000)`: truncation to the first 2000 units
(modelled on characters). -/
def sliceToLimit (s : String) : String :=
  String.mk (s.data.take 2000)

/-- HTTP/Socket handler result, keeping status codes and the data the
handlers put in their JSON bodies (error texts are presentation only). -/
inductive Resp where
  | ok : Resp
  | okInfo (info : String) : Resp
  | okUser (username : String) : Resp
  | okFriends (friendsOfFrom friendsOfTo : List String) : Resp
  | okMessage (m : Message) : Resp
  | err (status : Nat) : Resp
deriving DecidableEq, Repr

/-- `POST /register { username, password }`. -/
def register (st : ServerState) (name pw : String) : ServerState × Resp :=
  if name = "" ∨ pw = "" then (st, .err 400)
  else if mapHas st.users name then (st, .err 409)
  else
    let st' := { st with users := mapSet st.users name (Account.registered pw) }
    (saveToDisk st', .okUser name)

/-- `POST /friends/request { from, to }`. -/
def requestFriendship (st : ServerState) (fromName toName : String) : ServerState × Resp :=
  if fromName = "" ∨ toName = "" then (st, .err 400)
  else if fromName = toName then (st, .err 400)
  else
    match mapGet st.users fromName, mapGet st.users toName with
    | some fromUser, some toUser =>
      if setHas fromUser.friends toName || setHas toUser.friends fromName then
        (st, .okInfo "veç jeni shokë")
      else if setHas fromUser.outgoing toName || setHas fromUser.incoming toName then
        (st, .okInfo "ka veç kërkesë")
      else
        let u1 := updAccount st.users fromName (fun u => { u with outgoing := setAdd u.outgoing toName })
        let u2 := updAccount u1 toName (fun u => { u with incoming := setAdd u.incoming fromName })
        (saveToDisk { st with users := u2 }, .ok)
    | _, _ => (st, .err 404)

/-- `POST /friends/accept { from, to }`; `from` accepts, `to` requested.
The six mutations are applied in source order; sequential read-modify-write
reproduces the JS object aliasing when `from = to`. -/
def acceptFriendship (st : ServerState) (fromName toName : String) : ServerState × Resp :=
  if fromName = "" ∨ toName = "" then (st, .err 400)
  else
    match mapGet st.users fromName, mapGet st.users toName with
    | some fromUser, some _ =>
      if ¬ setHas fromUser.incoming toName then (st, .err 400)
      else
        let u1 := updAccount st.users fromName (fun u => { u with incoming := setDel u.incoming toName })
        let u2 := updAccount u1 toName (fun u => { u with outgoing := setDel u.outgoing fromName })
        let u3 := updAccount u2 fromName (fun u => { u with friends := setAdd u.friends toName })
        let u4 := updAccount u3 toName (fun u => { u with friends := setAdd u.friends fromName })
        let u5 := updAccount u4 fromName (fun u => { u with outgoing := setDel u.outgoing toName })
        let u6 := updAccount u5 toName (fun u => { u with incoming := setDel u.incoming fromName })
        (saveToDisk { st with users := u6 }, .ok)
    | _, _ => (st, .err 404)

/-- `POST /friends/add { from, to }` (direct friendship). -/
def directAdd (st : ServerState) (fromName toName : String) : ServerState × Resp :=
  if fromName = "" ∨ toName = "" then (st, .err 400)
  else if fromName = toName then (st, .err 400)
  else
    match mapGet st.users fromName, mapGet st.users toName with
    | some fromUser, some toUser =>
      if setHas fromUser.friends toName && setHas toUser.friends fromName then
        (st, .okInfo "veç jeni shokë")
      else
        let u1 := updAccount st.users fromName (fun u => { u with friends := setAdd u.friends toName })
        let u2 := updAccount u1 toName (fun u => { u with friends := setAdd u.friends fromName })
        let u3 := updAccount u2 fromName (fun u => { u with incoming := setDel u.incoming toName })
        let u4 := updAccount u3 fromName (fun u => { u with outgoing := setDel u.outgoing toName })
        let u5 := updAccount u4 toName (fun u => { u with incoming := setDel u.incoming fromName })
        let u6 := updAccount u5 toName (fun u => { u with outgoing := setDel u.outgoing fromName })
        let stS := saveToDisk { st with users := u6 }
        (stS, .okFriends (friendsOf u6 fromName) (friendsOf u6 toName))
    | _, _ => (st, .err 404)

/-- Stable insertion of a message into a list ascending in `createdAt`.
`Array.prototype.sort` with comparator `a.createdAt - b.createdAt` is a
stable ascending sort (ES2019); a stable sort by a total preorder has a
unique result, embedded here as stable insertion sort. -/
def insertByTime (m : Message) : List Message → List Message
  | [] => [m]
  | y :: ys => if m.createdAt ≤ y.createdAt then m :: y :: ys else y :: insertByTime m ys

/-- Stable ascending sort by `createdAt`. -/
def sortByTime : List Message → List Message
  | [] => []
  | x :: xs => insertByTime x (sortByTime xs)

/-- Predicate of `getConversation`'s filter: the message is between
`userA` and `userB`. -/
def betweenUsers (userA userB : String) (m : Message) : Bool :=
  (m.sender == userA && m.recipient == userB) || (m.sender == userB && m.recipient == userA)

/-- `getConversation(userA, userB)`. -/
def getConversation (userA userB : String) (msgs : List Message) : List Message :=
  sortByTime (msgs.filter (betweenUsers userA userB))

/-- `POST /api/messages` behind `authMiddleware` (which 401s unless the
bearer username exists); `now`/`rnd` stand for `Date.now()` and the random
id suffix. -/
def sendMessage (st : ServerState) (userId toName text : String) (now : Int) (rnd : String) :
    ServerState × Resp :=
  if ¬ mapHas st.users userId then (st, .err 401)
  else if toName = "" ∨ isBlank text then (st, .err 400)
  else
    let msgText := sliceToLimit text
    if ¬ mapHas st.users toName then (st, .err 404)
    else
      match mapGet st.users userId with
      | some fromUser =>
        if ¬ setHas fromUser.friends toName then (st, .err 403)
        else
          let msg : Message := ⟨toString now ++ "-" ++ rnd, userId, toName, msgText, now⟩
          (saveToDisk { st with messages := st.messages ++ [msg] }, .okMessage msg)
      | none => (st, .err 401)

/-- One live socket connection: its id and the handler-local `username`
variable (`null` initially). -/
structure Conn where
  sid : Nat
  username : Option String
deriving DecidableEq, Repr

/-- Socket `register` event: set the local `username`, `ensureUser`, then
`onlineUsers.set(name, socket.id)`. Note: no `saveToDisk`. -/
def socketRegister (st : ServerState) (conn : Conn) (rawName : String) : ServerState × Conn :=
  if rawName = "" then (st, conn)
  else
    let conn' := { conn with username := some rawName }
    let st1 := { st with users := ensureUser st.users rawName }
    ({ st1 with onlineUsers := mapSet st1.onlineUsers rawName conn.sid }, conn')

/-- Socket `chatMessage` event. `time` is the client-supplied `time` field
(`none` when absent); `ts = time || Date.now()` treats `0` as falsy. -/
def socketChatMessage (st : ServerState) (fromName toName text : String)
    (time : Option Int) (now : Int) (rnd : String) : ServerState :=
  if fromName = "" ∨ toName = "" ∨ isBlank text then st
  else
    let msgText := sliceToLimit text
    let ts : Int := match time with
      | some t => if t = 0 then now else t
      | none => now
    if ¬ (mapHas st.users fromName ∧ mapHas st.users toName) then st
    else
      match mapGet st.users fromName with
      | some fromUser =>
        if ¬ setHas fromUser.friends toName then st
        else
          let msg : Message := ⟨toString now ++ "-" ++ rnd, fromName, toName, msgText, ts⟩
          saveToDisk { st with messages := st.messages ++ [msg] }
      | none => st

/-- Socket `disconnect` event: remove the presence entry only when it still
points at this socket's id. -/
def socketDisconnect (st : ServerState) (conn : Conn) : ServerState :=
  match conn.username with
  | some name =>
    if name ≠ "" ∧ mapGet st.onlineUsers name = some conn.sid then
      { st with onlineUsers := mapDel st.onlineUsers name }
    else st
  | none => st

/-! ## Basic lemmas about the map and set embeddings -/

@[simp]
theorem mapGet_mapSet_self {α : Type} (m : SMap α) (k : String) (v : α) :
    mapGet (mapSet m k v) k = some v := by
  induction m with
  | nil => simp [mapSet, mapGet]
  | cons p rest ih =>
    obtain ⟨k', w⟩ := p
    by_cases h : k' = k <;> simp [mapSet, mapGet, h, ih]

theorem mapGet_mapSet_ne {α : Type} (m : SMap α) {k k' : String} (v : α) (h : k ≠ k') :
    mapGet (mapSet m k v) k' = mapGet m k' := by
  induction m with
  | nil => simp [mapSet, mapGet, h]
  | cons p rest ih =>
    obtain ⟨k'', w⟩ := p
    by_cases h2 : k'' = k
    · subst h2
      simp [mapSet, mapGet, h]
    · simp [mapSet, mapGet, h2, ih]

@[simp]
theorem mapGet_mapDel_self {α : Type} (m : SMap α) (k : String) :
    mapGet (mapDel m k) k = none := by
  induction m with
  | nil => simp [mapDel, mapGet]
  | cons p rest ih =>
    obtain ⟨k', w⟩ := p
    by_cases h : k' = k <;> simp_all [mapDel, mapGet, h]

theorem mapGet_mapDel_ne {α : Type} (m : SMap α) {k k' : String} (h : k ≠ k') :
    mapGet (mapDel m k) k' = mapGet m k' := by
  induction m with
  | nil => simp [mapDel, mapGet]
  | cons p rest ih =>
    obtain ⟨k'', w⟩ := p
    by_cases h2 : k'' = k
    · subst h2
      simp_all [mapDel, mapGet, Ne.symm h]
    · by_cases h3 : k'' = k' <;> simp_all [mapDel, mapGet]

theorem mapHas_iff_isSome {α : Type} (m : SMap α) (k : String) :
    mapHas m k = true ↔ (mapGet m k).isSome := by
  simp [mapHas]

theorem mapGet_updAccount_self (users_ : SMap Account) (n : String) (f : Account → Account) :
    mapGet (updAccount users_ n f) n = (mapGet users_ n).map f := by
  unfold updAccount
  cases h : mapGet users_ n <;> simp [h]

theorem mapGet_updAccount_ne (users_ : SMap Account) {n m : String} (f : Account → Account)
    (h : n ≠ m) : mapGet (updAccount users_ n f) m = mapGet users_ m := by
  unfold updAccount
  cases hg : mapGet users_ n
  · rfl
  · simp [mapGet_mapSet_ne _ _ h]

theorem mapGet_mem {α : Type} {m : SMap α} {k : String} {v : α}
    (h : mapGet m k = some v) : (k, v) ∈ m := by
  induction m with
  | nil => simp [mapGet] at h
  | cons p rest ih =>
    obtain ⟨k', w⟩ := p
    by_cases h2 : k' = k
    · subst h2
      simp [mapGet] at h
      simp [h]
    · simp [mapGet, h2] at h
      simp [ih h]

@[simp]
theorem mem_setAdd_self (l : List String) (x : String) : x ∈ setAdd l x := by
  unfold setAdd
  split <;> simp_all

theorem mem_setAdd_iff (l : List String) (x y : String) :
    y ∈ setAdd l x ↔ y ∈ l ∨ y = x := by
  unfold setAdd
  split
  · rename_i h
    constructor
    · exact fun hy => Or.inl hy
    · rintro (hy | rfl)
      · exact hy
      · exact h
  · simp

@[simp]
theorem not_mem_setDel_self (l : List String) (x : String) : x ∉ setDel l x := by
  simp [setDel]

theorem mem_setDel_iff (l : List String) (x y : String) :
    y ∈ setDel l x ↔ y ∈ l ∧ y ≠ x := by
  simp [setDel]

theorem setHas_iff (l : List String) (x : String) : setHas l x = true ↔ x ∈ l := by
  simp [setHas]

/-! ## C2: TTL law of `cleanupOldMessages` -/

/-- Concrete message whose age at time `MESSAGE_TTL_MS` is exactly the
retention window. -/
def boundaryMsg : Message := ⟨"0-x", "a", "b", "hi", 0⟩

/-- Concrete state holding only `boundaryMsg`. -/
def boundaryState : ServerState := ⟨[], [], [boundaryMsg], 0⟩

/-- C2 (counterexample): the claim says a message whose age is *exactly*
the retention window is preserved by the prune; but at `now =
MESSAGE_TTL_MS` the message `boundaryMsg` (age exactly the window, so its
age is not greater than the window) is removed by `cleanupOldMessages`. -/
theorem cleanup_boundary_counterexample :
    ¬ (MESSAGE_TTL_MS - boundaryMsg.createdAt > MESSAGE_TTL_MS) ∧
      boundaryMsg ∉ (cleanupOldMessages MESSAGE_TTL_MS boundaryState).messages := by
  decide

/-- C2 (amended): a prune at time `now` preserves exactly the messages of
age strictly less than the retention window: `m` survives iff `m` was in
the log and `now - m.createdAt < MESSAGE_TTL_MS`; equivalently every
message of age `≥` the window (including the boundary case of age exactly
the window) is removed, and for every message exactly one of the two
holds. -/
theorem cleanupOldMessages_mem_iff (now : Int) (st : ServerState) (m : Message) :
    m ∈ (cleanupOldMessages now st).messages ↔
      m ∈ st.messages ∧ now - m.createdAt < MESSAGE_TTL_MS := by
  have hgen : ∀ l : List Message,
      m ∈ l.filter (fun x => decide (x.createdAt > now - MESSAGE_TTL_MS)) ↔
        m ∈ l ∧ now - m.createdAt < MESSAGE_TTL_MS := by
    intro l
    simp only [List.mem_filter, decide_eq_true_eq]
    constructor
    · rintro ⟨h1, h2⟩
      exact ⟨h1, by omega⟩
    · rintro ⟨h1, h2⟩
      exact ⟨h1, by omega⟩
  unfold cleanupOldMessages
  dsimp only
  split <;> simpa [saveToDisk] using hgen st.messages

/-! ## C1: postcondition of a successful `POST /friends/accept` -/

/-- C1: if `acceptFriendship A B` succeeds (which requires both accounts to
exist and `B ∈ incoming(A)`), then afterwards the friendship is mutual —
`B ∈ friends(A)` and `A ∈ friends(B)` — and all four possible pending
edges between the pair are gone: `B` is in neither `incoming(A)` nor
`outgoing(A)`, and `A` is in neither `incoming(B)` nor `outgoing(B)`. -/
theorem acceptFriendship_ok_postcondition (st : ServerState) (A B : String)
    (hok : (acceptFriendship st A B).2 = Resp.ok) :
    B ∈ friendsOf (acceptFriendship st A B).1.users A ∧
    A ∈ friendsOf (acceptFriendship st A B).1.users B ∧
    B ∉ incomingOf (acceptFriendship st A B).1.users A ∧
    B ∉ outgoingOf (acceptFriendship st A B).1.users A ∧
    A ∉ incomingOf (acceptFriendship st A B).1.users B ∧
    A ∉ outgoingOf (acceptFriendship st A B).1.users B := by
  by_cases h0 : A = "" ∨ B = ""
  · simp [acceptFriendship, h0] at hok
  · push_neg at h0
    obtain ⟨hA0, hB0⟩ := h0
    have h0 : ¬ (A = "" ∨ B = "") := by simp [hA0, hB0]
    cases hA : mapGet st.users A with
    | none => simp [acceptFriendship, h0, hA] at hok
    | some fu =>
      cases hB : mapGet st.users B with
      | none => simp [acceptFriendship, h0, hA, hB] at hok
      | some tu =>
        by_cases hinc : setHas fu.incoming B
        · by_cases hab : A = B
          · subst hab
            rw [hA] at hB
            injection hB with hB'
            subst hB'
            simp [acceptFriendship, h0, hA0, hA, hinc, friendsOf, incomingOf, outgoingOf,
              mapGet_updAccount_self, saveToDisk]
          · simp [acceptFriendship, h0, hA0, hB0, hA, hB, hinc, friendsOf, incomingOf, outgoingOf,
              mapGet_updAccount_self, mapGet_updAccount_ne _ _ hab,
              mapGet_updAccount_ne _ _ (Ne.symm hab), saveToDisk]
        · simp [acceptFriendship, h0, hA, hB, hinc] at hok

/-- Concrete two-user state with a pending request from "b" to "a". -/
def acceptState : ServerState :=
  ⟨[("a", ⟨some "pw1", [], ["b"], []⟩), ("b", ⟨some "pw2", [], [], ["a"]⟩)], [], [], 0⟩

/-- C1 witness: on `acceptState`, `acceptFriendship "a" "b"` succeeds and
the postcondition holds. -/
theorem acceptFriendship_ok_postcondition_witness :
    (acceptFriendship acceptState "a" "b").2 = Resp.ok ∧
    ("b" ∈ friendsOf (acceptFriendship acceptState "a" "b").1.users "a" ∧
     "a" ∈ friendsOf (acceptFriendship acceptState "a" "b").1.users "b" ∧
     "b" ∉ incomingOf (acceptFriendship acceptState "a" "b").1.users "a" ∧
     "b" ∉ outgoingOf (acceptFriendship acceptState "a" "b").1.users "a" ∧
     "a" ∉ incomingOf (acceptFriendship acceptState "a" "b").1.users "b" ∧
     "a" ∉ outgoingOf (acceptFriendship acceptState "a" "b").1.users "b") :=
  ⟨by decide, acceptFriendship_ok_postcondition acceptState "a" "b" (by decide)⟩

@[simp]
theorem setHas_setAdd_self (l : List String) (x : String) : setHas (setAdd l x) x = true := by
  simp [setHas]

/-! ## C6: idempotence of `POST /friends/request` -/

/-- C6: for distinct existing users `A`, `B`, a second
`requestFriendship A B` right after a first one changes nothing (the full
server state is unchanged, in particular every account's
friends/incoming/outgoing sets) and returns a no-op success carrying an
informational status. -/
theorem requestFriendship_idempotent (st : ServerState) (A B : String)
    (hab : A ≠ B) (hA0 : A ≠ "") (hB0 : B ≠ "")
    (hA : mapHas st.users A = true) (hB : mapHas st.users B = true) :
    (requestFriendship (requestFriendship st A B).1 A B).1 = (requestFriendship st A B).1 ∧
    ∃ info, (requestFriendship (requestFriendship st A B).1 A B).2 = Resp.okInfo info := by
  have h0 : ¬ (A = "" ∨ B = "") := by simp [hA0, hB0]
  cases hgA : mapGet st.users A with
  | none => rw [mapHas, hgA] at hA; simp at hA
  | some fu =>
    cases hgB : mapGet st.users B with
    | none => rw [mapHas, hgB] at hB; simp at hB
    | some tu =>
      by_cases hf : (setHas fu.friends B || setHas tu.friends A) = true
      · constructor <;> simp [requestFriendship, h0, hab, hgA, hgB, hf]
      · by_cases hp : (setHas fu.outgoing B || setHas fu.incoming B) = true
        · constructor <;> simp [requestFriendship, h0, hab, hgA, hgB, hf, hp]
        · simp only [Bool.or_eq_true, not_or, Bool.not_eq_true] at hf hp
          obtain ⟨hf1, hf2⟩ := hf
          obtain ⟨hp1, hp2⟩ := hp
          constructor <;>
            simp [requestFriendship, h0, hab, hgA, hgB, hf1, hf2, hp1, hp2,
              mapGet_updAccount_self, mapGet_updAccount_ne _ _ hab,
              mapGet_updAccount_ne _ _ (Ne.symm hab), saveToDisk]

/-- Concrete two-user state with no friendship and no pending edges. -/
def freshPairState : ServerState :=
  ⟨[("a", ⟨some "pw1", [], [], []⟩), ("b", ⟨some "pw2", [], [], []⟩)], [], [], 0⟩

/-- C6 witness: on `freshPairState`, the double request is a no-op after
the first call and answers with an informational status. -/
theorem requestFriendship_idempotent_witness :
    (requestFriendship (requestFriendship freshPairState "a" "b").1 "a" "b").1 =
      (requestFriendship freshPairState "a" "b").1 ∧
    ∃ info,
      (requestFriendship (requestFriendship freshPairState "a" "b").1 "a" "b").2 =
        Resp.okInfo info :=
  requestFriendship_idempotent freshPairState "a" "b" (by decide) (by decide) (by decide)
    (by decide) (by decide)

/-! ## C7: idempotence of `POST /friends/add` -/

/-- C7: for distinct existing users `A`, `B`, a second `directAdd A B`
right after a first one leaves the full server state (in particular every
account's friends/incoming/outgoing sets) unchanged and returns a no-op
success with an informational status. -/
theorem directAdd_idempotent (st : ServerState) (A B : String)
    (hab : A ≠ B) (hA0 : A ≠ "") (hB0 : B ≠ "")
    (hA : mapHas st.users A = true) (hB : mapHas st.users B = true) :
    (directAdd (directAdd st A B).1 A B).1 = (directAdd st A B).1 ∧
    ∃ info, (directAdd (directAdd st A B).1 A B).2 = Resp.okInfo info := by
  have h0 : ¬ (A = "" ∨ B = "") := by simp [hA0, hB0]
  cases hgA : mapGet st.users A with
  | none => rw [mapHas, hgA] at hA; simp at hA
  | some fu =>
    cases hgB : mapGet st.users B with
    | none => rw [mapHas, hgB] at hB; simp at hB
    | some tu =>
      by_cases hf : (setHas fu.friends B && setHas tu.friends A) = true
      · constructor <;> simp [directAdd, h0, hab, hgA, hgB, hf]
      · constructor <;>
          simp [directAdd, h0, hab, hgA, hgB, hf,
            mapGet_updAccount_self, mapGet_updAccount_ne _ _ hab,
            mapGet_updAccount_ne _ _ (Ne.symm hab), saveToDisk]

/-- Concrete state for the C7 witness: `a` and `b` exist, `b` has a stale
pending request towards `a`. -/
def stalePairState : ServerState :=
  ⟨[("a", ⟨some "pw1", [], ["b"], []⟩), ("b", ⟨some "pw2", [], [], ["a"]⟩)], [], [], 0⟩

/-- C7 witness: on `stalePairState`, the double direct add is a no-op
after the first call and answers with an informational status. -/
theorem directAdd_idempotent_witness :
    (directAdd (directAdd stalePairState "a" "b").1 "a" "b").1 =
      (directAdd stalePairState "a" "b").1 ∧
    ∃ info,
      (directAdd (directAdd stalePairState "a" "b").1 "a" "b").2 = Resp.okInfo info :=
  directAdd_idempotent stalePairState "a" "b" (by decide) (by decide) (by decide)
    (by decide) (by decide)

/-! ## C5: presence race safety of the disconnect handler -/

/-- C5: if session `c1` registers username `U`, then a different session
`c2` registers `U`, and then `c1` disconnects, the presence registry still
maps `U` to `c2`'s socket id — the disconnect removes the entry only when
it still points at the disconnecting socket. -/
theorem presence_race_safe (st : ServerState) (c1 c2 : Conn) (U : String)
    (hU : U ≠ "") (hsid : c1.sid ≠ c2.sid) :
    mapGet (socketDisconnect
        (socketRegister (socketRegister st c1 U).1 c2 U).1
        (socketRegister st c1 U).2).onlineUsers U = some c2.sid := by
  simp [socketRegister, socketDisconnect, hU, Ne.symm hsid, mapGet_mapSet_self]

/-- C5 witness: concrete run with sockets 1 and 2 both registering "u". -/
theorem presence_race_safe_witness :
    mapGet (socketDisconnect
        (socketRegister (socketRegister ⟨[], [], [], 0⟩ ⟨1, none⟩ "u").1 ⟨2, none⟩ "u").1
        (socketRegister ⟨[], [], [], 0⟩ ⟨1, none⟩ "u").2).onlineUsers "u" = some 2 :=
  presence_race_safe ⟨[], [], [], 0⟩ ⟨1, none⟩ ⟨2, none⟩ "u" (by decide) (by decide)

/-! ## C10: stale presence entry after re-registering a different name -/

/-- C10: if one session registers `U` and later registers a different
username `V` over the same connection, its disconnect consults only `V`:
the `V` entry is removed (it still points at this socket) while `U`
remains mapped to this socket's id — a stale presence entry. -/
theorem stale_presence_after_rename (st : ServerState) (c : Conn) (U V : String)
    (hU : U ≠ "") (hV : V ≠ "") (hUV : U ≠ V) :
    mapGet (socketDisconnect
        (socketRegister (socketRegister st c U).1 (socketRegister st c U).2 V).1
        (socketRegister (socketRegister st c U).1 (socketRegister st c U).2 V).2).onlineUsers
      U = some c.sid ∧
    mapGet (socketDisconnect
        (socketRegister (socketRegister st c U).1 (socketRegister st c U).2 V).1
        (socketRegister (socketRegister st c U).1 (socketRegister st c U).2 V).2).onlineUsers
      V = none := by
  constructor <;>
    simp [socketRegister, socketDisconnect, hU, hV, hUV, mapGet_mapSet_self,
      mapGet_mapSet_ne _ _ (Ne.symm hUV), mapGet_mapDel_ne _ (Ne.symm hUV),
      mapGet_mapDel_self]

/-- C10 witness: socket 1 registers "u", then "v", then disconnects; "u"
stays mapped to socket 1 and "v" is gone. -/
theorem stale_presence_after_rename_witness :
    mapGet (socketDisconnect
        (socketRegister (socketRegister ⟨[], [], [], 0⟩ ⟨1, none⟩ "u").1
          (socketRegister ⟨[], [], [], 0⟩ ⟨1, none⟩ "u").2 "v").1
        (socketRegister (socketRegister ⟨[], [], [], 0⟩ ⟨1, none⟩ "u").1
          (socketRegister ⟨[], [], [], 0⟩ ⟨1, none⟩ "u").2 "v").2).onlineUsers
      "u" = some 1 ∧
    mapGet (socketDisconnect
        (socketRegister (socketRegister ⟨[], [], [], 0⟩ ⟨1, none⟩ "u").1
          (socketRegister ⟨[], [], [], 0⟩ ⟨1, none⟩ "u").2 "v").1
        (socketRegister (socketRegister ⟨[], [], [], 0⟩ ⟨1, none⟩ "u").1
          (socketRegister ⟨[], [], [], 0⟩ ⟨1, none⟩ "u").2 "v").2).onlineUsers
      "v" = none :=
  stale_presence_after_rename ⟨[], [], [], 0⟩ ⟨1, none⟩ "u" "v" (by decide) (by decide)
    (by decide)

/-! ## C4: messaging requires mutual friendship -/

/-- The data-model invariant of §3: the `friends` relation is symmetric.
Quantified over the entries of the store, so it is decidable on concrete
states. -/
def SymmFriends (users_ : SMap Account) : Prop :=
  ∀ p ∈ users_, ∀ f ∈ p.2.friends, p.1 ∈ friendsOf users_ f

instance (users_ : SMap Account) : Decidable (SymmFriends users_) := by
  unfold SymmFriends
  infer_instance

/-- C4: (i) `POST /api/messages` creates a message only if sender and
recipient are mutual friends at send time (mutuality uses the symmetric
friends invariant, which the handshake maintains); (ii) whenever the
recipient is not in the sender's friend set — and the earlier guards do
not fire first: sender authenticated, recipient existing, text nonempty —
the call fails with 403 (NotFriends) and the state, in particular the
message log, is unchanged, regardless of prior message history. -/
theorem sendMessage_requires_mutual_friends (st : ServerState) (A B text : String)
    (now : Int) (rnd : String) (hsym : SymmFriends st.users) :
    (∀ m, (sendMessage st A B text now rnd).2 = Resp.okMessage m →
      B ∈ friendsOf st.users A ∧ A ∈ friendsOf st.users B) ∧
    (mapHas st.users A = true → mapHas st.users B = true → B ≠ "" → ¬ isBlank text = true →
      B ∉ friendsOf st.users A →
      (sendMessage st A B text now rnd).2 = Resp.err 403 ∧
      (sendMessage st A B text now rnd).1 = st) := by
  by_cases hAu : mapHas st.users A = true
  case neg =>
    constructor
    · intro m hm
      simp [sendMessage, hAu] at hm
    · intro h
      exact absurd h hAu
  case pos =>
  by_cases hg : B = "" ∨ isBlank text = true
  case pos =>
    constructor
    · intro m hm
      simp [sendMessage, hAu, hg] at hm
    · intro _ _ hB0 hT0 _
      rcases hg with h | h
      · exact absurd h hB0
      · exact absurd h hT0
  case neg =>
  by_cases hBu : mapHas st.users B = true
  case neg =>
    constructor
    · intro m hm
      simp [sendMessage, hAu, hg, hBu] at hm
    · intro _ h
      exact absurd h hBu
  case pos =>
  cases hgA : mapGet st.users A with
  | none => rw [mapHas, hgA] at hAu; simp at hAu
  | some fu =>
    by_cases hfr : setHas fu.friends B = true
    · have hBf : B ∈ fu.friends := (setHas_iff _ _).mp hfr
      constructor
      · intro m _
        refine ⟨?_, ?_⟩
        · simpa [friendsOf, hgA] using hBf
        · exact hsym (A, fu) (mapGet_mem hgA) B hBf
      · intro _ _ _ _ hnot
        exact absurd (by simpa [friendsOf, hgA] using hBf) hnot
    · constructor
      · intro m hm
        simp [sendMessage, hAu, hg, hBu, hgA, hfr] at hm
      · intro _ _ _ _ _
        constructor <;> simp [sendMessage, hAu, hg, hBu, hgA, hfr]

/-- Concrete state where "a" and "b" are mutual friends. -/
def mutualPairState : ServerState :=
  ⟨[("a", ⟨some "pw1", ["b"], [], []⟩), ("b", ⟨some "pw2", ["a"], [], []⟩)], [], [], 0⟩

/-- Concrete state where "a" and "b" exist but are not friends. -/
def strangersState : ServerState :=
  ⟨[("a", ⟨some "pw1", [], [], []⟩), ("b", ⟨some "pw2", [], [], []⟩)], [], [], 0⟩

/-- C4 witness: on `mutualPairState` a successful send implies mutuality;
on `strangersState` the send fails with 403 and leaves the state alone. -/
theorem sendMessage_requires_mutual_friends_witness :
    ("b" ∈ friendsOf mutualPairState.users "a" ∧
     "a" ∈ friendsOf mutualPairState.users "b") ∧
    ((sendMessage strangersState "a" "b" "hi" 0 "r").2 = Resp.err 403 ∧
     (sendMessage strangersState "a" "b" "hi" 0 "r").1 = strangersState) :=
  ⟨(sendMessage_requires_mutual_friends mutualPairState "a" "b" "hi" 0 "r" (by decide)).1
      ⟨"0-r", "a", "b", "hi", 0⟩ (by decide),
   (sendMessage_requires_mutual_friends strangersState "a" "b" "hi" 0 "r" (by decide)).2
      (by decide) (by decide) (by decide) (by decide) (by decide)⟩

/-! ## C9: the socket `chatMessage` handler trusts a truthy client `time` -/

/-- C9: when the socket `chatMessage` guards pass (nonempty names and
text, both users exist, recipient in sender's friends), a truthy (nonzero)
client-supplied `time` is stored verbatim as the new message's
`createdAt`; when `time` is absent or `0` (falsy), the server clock `now`
is used instead. The stored `createdAt` is what conversation ordering and
TTL pruning consult. -/
theorem socketChatMessage_client_time (st : ServerState) (A B text : String)
    (t now : Int) (rnd : String)
    (hA0 : A ≠ "") (hB0 : B ≠ "") (hT : ¬ isBlank text = true)
    (hA : mapHas st.users A = true) (hB : mapHas st.users B = true)
    (hfr : B ∈ friendsOf st.users A) :
    (t ≠ 0 → (socketChatMessage st A B text (some t) now rnd).messages =
      st.messages ++ [⟨toString now ++ "-" ++ rnd, A, B, sliceToLimit text, t⟩]) ∧
    ((socketChatMessage st A B text none now rnd).messages =
      st.messages ++ [⟨toString now ++ "-" ++ rnd, A, B, sliceToLimit text, now⟩]) ∧
    ((socketChatMessage st A B text (some 0) now rnd).messages =
      st.messages ++ [⟨toString now ++ "-" ++ rnd, A, B, sliceToLimit text, now⟩]) := by
  cases hgA : mapGet st.users A with
  | none => rw [mapHas, hgA] at hA; simp at hA
  | some fu =>
    have hfr' : setHas fu.friends B = true := by
      rw [setHas_iff]
      simpa [friendsOf, hgA] using hfr
    refine ⟨fun ht => ?_, ?_, ?_⟩
    · simp [socketChatMessage, hA0, hB0, hT, hA, hB, hgA, hfr', ht, saveToDisk]
    · simp [socketChatMessage, hA0, hB0, hT, hA, hB, hgA, hfr', saveToDisk]
    · simp [socketChatMessage, hA0, hB0, hT, hA, hB, hgA, hfr', saveToDisk]

/-- C9 witness: on `mutualPairState`, a socket message with client time
`5` (server clock `0`) is stored with `createdAt = 5`, and with absent or
zero client time it is stored with `createdAt = 0`. -/
theorem socketChatMessage_client_time_witness :
    ((socketChatMessage mutualPairState "a" "b" "hi" (some 5) 0 "r").messages =
      mutualPairState.messages ++ [⟨"0-r", "a", "b", sliceToLimit "hi", 5⟩]) ∧
    ((socketChatMessage mutualPairState "a" "b" "hi" none 0 "r").messages =
      mutualPairState.messages ++ [⟨"0-r", "a", "b", sliceToLimit "hi", 0⟩]) ∧
    ((socketChatMessage mutualPairState "a" "b" "hi" (some 0) 0 "r").messages =
      mutualPairState.messages ++ [⟨"0-r", "a", "b", sliceToLimit "hi", 0⟩]) := by
  have h := socketChatMessage_client_time mutualPairState "a" "b" "hi" 5 0 "r"
    (by decide) (by decide) (by decide) (by decide) (by decide) (by decide)
  exact ⟨h.1 (by decide), h.2.1, h.2.2⟩

/-! ## C8: `getConversation` returns the pair's messages in stable
ascending `createdAt` order -/

theorem insertByTime_perm (m : Message) (l : List Message) :
    (insertByTime m l).Perm (m :: l) := by
  induction l with
  | nil => simp [insertByTime]
  | cons y ys ih =>
    unfold insertByTime
    split
    · exact List.Perm.refl _
    · exact (ih.cons y).trans (List.Perm.swap m y ys)

theorem insertByTime_pairwise (m : Message) (l : List Message)
    (h : l.Pairwise (fun a b => a.createdAt ≤ b.createdAt)) :
    (insertByTime m l).Pairwise (fun a b => a.createdAt ≤ b.createdAt) := by
  induction l with
  | nil => simp [insertByTime]
  | cons y ys ih =>
    rw [List.pairwise_cons] at h
    obtain ⟨hy, hys⟩ := h
    unfold insertByTime
    split
    · rename_i hle
      rw [List.pairwise_cons]
      refine ⟨?_, List.pairwise_cons.mpr ⟨hy, hys⟩⟩
      intro b hb
      rcases List.mem_cons.mp hb with rfl | hb'
      · exact hle
      · exact le_trans hle (hy b hb')
    · rename_i hgt
      rw [List.pairwise_cons]
      refine ⟨?_, ih hys⟩
      intro b hb
      have hb2 : b ∈ m :: ys := (insertByTime_perm m ys).mem_iff.mp hb
      rcases List.mem_cons.mp hb2 with rfl | hb'
      · omega
      · exact hy b hb'

theorem filter_insertByTime (m : Message) (l : List Message) (t : Int) :
    (insertByTime m l).filter (fun x => x.createdAt == t) =
      if m.createdAt = t then m :: l.filter (fun x => x.createdAt == t)
      else l.filter (fun x => x.createdAt == t) := by
  induction l with
  | nil =>
    by_cases hm : m.createdAt = t <;> simp [insertByTime, hm]
  | cons y ys ih =>
    unfold insertByTime
    split
    · rename_i hle
      by_cases hm : m.createdAt = t <;> simp [hm, List.filter_cons]
    · rename_i hgt
      by_cases hy : y.createdAt = t
      · have hm : ¬ m.createdAt = t := by omega
        simp [List.filter_cons, hy, hm, ih]
      · by_cases hm : m.createdAt = t <;> simp [List.filter_cons, hy, hm, ih]

theorem sortByTime_perm (l : List Message) : (sortByTime l).Perm l := by
  induction l with
  | nil => simp [sortByTime]
  | cons x xs ih => exact (insertByTime_perm x (sortByTime xs)).trans (ih.cons x)

theorem sortByTime_pairwise (l : List Message) :
    (sortByTime l).Pairwise (fun a b => a.createdAt ≤ b.createdAt) := by
  induction l with
  | nil => simp [sortByTime]
  | cons x xs ih => exact insertByTime_pairwise x (sortByTime xs) ih

theorem filter_sortByTime (l : List Message) (t : Int) :
    (sortByTime l).filter (fun x => x.createdAt == t) =
      l.filter (fun x => x.createdAt == t) := by
  induction l with
  | nil => rfl
  | cons x xs ih =>
    unfold sortByTime
    rw [filter_insertByTime]
    by_cases hx : x.createdAt = t <;> simp [List.filter_cons, hx, ih]

/-- C8: `getConversation A B` returns exactly the messages of the log
whose `{sender, recipient}` pair is `{A, B}` (a permutation of the filter
of the log), in ascending `createdAt` order, and within each equal
timestamp the messages appear in their insertion order into the log (the
equal-time subsequence of the result equals that of the filtered log). -/
theorem getConversation_spec (A B : String) (msgs : List Message) :
    (getConversation A B msgs).Perm (msgs.filter (betweenUsers A B)) ∧
    (getConversation A B msgs).Pairwise (fun a b => a.createdAt ≤ b.createdAt) ∧
    (∀ t : Int, (getConversation A B msgs).filter (fun x => x.createdAt == t) =
      (msgs.filter (betweenUsers A B)).filter (fun x => x.createdAt == t)) :=
  ⟨sortByTime_perm _, sortByTime_pairwise _, fun t => filter_sortByTime _ t⟩

/-! ## C3: write-through persistence -/

/-- The operation turned `st` into `st'` mutating the Identity Store or
the Message Log. -/
abbrev mutatesStores (st st' : ServerState) : Prop :=
  st'.users ≠ st.users ∨ st'.messages ≠ st.messages

/-- C3 (counterexample): the socket `register` handler's lazy account
creation mutates the Identity Store (a new account for "carol") but calls
no snapshot — `saves` stays `0` — contradicting the claim that *every*
state-changing mutation, including this lazy creation, triggers a
snapshot before the operation completes. -/
theorem socketRegister_no_snapshot_counterexample :
    (socketRegister ⟨[], [], [], 0⟩ ⟨1, none⟩ "carol").1.users ≠
      (⟨[], [], [], 0⟩ : ServerState).users ∧
    (socketRegister ⟨[], [], [], 0⟩ ⟨1, none⟩ "carol").1.saves =
      (⟨[], [], [], 0⟩ : ServerState).saves := by
  decide

/-- C3 (amended): every HTTP-side mutating operation — registration,
friend request, friend accept, direct add, message append (HTTP and
socket `chatMessage` paths), and a prune that removed messages — calls
`saveToDisk` before completing whenever it mutated the Identity Store or
the Message Log; the socket `register` handler however never snapshots,
even though its lazy `ensureUser` can mutate the Identity Store. -/
theorem writeThrough_amended :
    (∀ st n pw, mutatesStores st (register st n pw).1 →
      (register st n pw).1.saves = st.saves + 1) ∧
    (∀ st a b, mutatesStores st (requestFriendship st a b).1 →
      (requestFriendship st a b).1.saves = st.saves + 1) ∧
    (∀ st a b, mutatesStores st (acceptFriendship st a b).1 →
      (acceptFriendship st a b).1.saves = st.saves + 1) ∧
    (∀ st a b, mutatesStores st (directAdd st a b).1 →
      (directAdd st a b).1.saves = st.saves + 1) ∧
    (∀ st a b text now rnd, mutatesStores st (sendMessage st a b text now rnd).1 →
      (sendMessage st a b text now rnd).1.saves = st.saves + 1) ∧
    (∀ st a b text time now rnd, mutatesStores st (socketChatMessage st a b text time now rnd) →
      (socketChatMessage st a b text time now rnd).saves = st.saves + 1) ∧
    (∀ now st, mutatesStores st (cleanupOldMessages now st) →
      (cleanupOldMessages now st).saves = st.saves + 1) ∧
    (∀ st c n, (socketRegister st c n).1.saves = st.saves) := by
  refine ⟨?_, ?_, ?_, ?_, ?_, ?_, ?_, ?_⟩
  · intro st n pw h
    by_cases h0 : n = "" ∨ pw = ""
    · simp [register, h0, mutatesStores] at h
    · by_cases h1 : mapHas st.users n = true
      · simp [register, h0, h1, mutatesStores] at h
      · simp [register, h0, h1, saveToDisk]
  · intro st a b h
    by_cases h0 : a = "" ∨ b = ""
    · simp [requestFriendship, h0, mutatesStores] at h
    · by_cases hab : a = b
      · simp [requestFriendship, h0, hab, mutatesStores] at h
      · cases hgA : mapGet st.users a with
        | none => simp [requestFriendship, h0, hab, hgA, mutatesStores] at h
        | some fu =>
          cases hgB : mapGet st.users b with
          | none => simp [requestFriendship, h0, hab, hgA, hgB, mutatesStores] at h
          | some tu =>
            by_cases hf : (setHas fu.friends b || setHas tu.friends a) = true
            · simp [requestFriendship, h0, hab, hgA, hgB, hf, mutatesStores] at h
            · by_cases hp : (setHas fu.outgoing b || setHas fu.incoming b) = true
              · simp [requestFriendship, h0, hab, hgA, hgB, hf, hp, mutatesStores] at h
              · simp [requestFriendship, h0, hab, hgA, hgB, hf, hp, saveToDisk]
  · intro st a b h
    by_cases h0 : a = "" ∨ b = ""
    · simp [acceptFriendship, h0, mutatesStores] at h
    · cases hgA : mapGet st.users a with
      | none => simp [acceptFriendship, h0, hgA, mutatesStores] at h
      | some fu =>
        cases hgB : mapGet st.users b with
        | none => simp [acceptFriendship, h0, hgA, hgB, mutatesStores] at h
        | some tu =>
          by_cases hinc : setHas fu.incoming b = true
          · simp [acceptFriendship, h0, hgA, hgB, hinc, saveToDisk]
          · simp [acceptFriendship, h0, hgA, hgB, hinc, mutatesStores] at h
  · intro st a b h
    by_cases h0 : a = "" ∨ b = ""
    · simp [directAdd, h0, mutatesStores] at h
    · by_cases hab : a = b
      · simp [directAdd, h0, hab, mutatesStores] at h
      · cases hgA : mapGet st.users a with
        | none => simp [directAdd, h0, hab, hgA, mutatesStores] at h
        | some fu =>
          cases hgB : mapGet st.users b with
          | none => simp [directAdd, h0, hab, hgA, hgB, mutatesStores] at h
          | some tu =>
            by_cases hf : (setHas fu.friends b && setHas tu.friends a) = true
            · simp [directAdd, h0, hab, hgA, hgB, hf, mutatesStores] at h
            · simp [directAdd, h0, hab, hgA, hgB, hf, saveToDisk]
  · intro st a b text now rnd h
    by_cases hAu : mapHas st.users a = true
    · by_cases hg : b = "" ∨ isBlank text = true
      · simp [sendMessage, hAu, hg, mutatesStores] at h
      · by_cases hBu : mapHas st.users b = true
        · cases hgA : mapGet st.users a with
          | none => simp [sendMessage, hAu, hg, hBu, hgA, mutatesStores] at h
          | some fu =>
            by_cases hfr : setHas fu.friends b = true
            · simp [sendMessage, hAu, hg, hBu, hgA, hfr, saveToDisk]
            · simp [sendMessage, hAu, hg, hBu, hgA, hfr, mutatesStores] at h
        · simp [sendMessage, hAu, hg, hBu, mutatesStores] at h
    · simp [sendMessage, hAu, mutatesStores] at h
  · intro st a b text time now rnd h
    by_cases h0 : a = "" ∨ b = "" ∨ isBlank text = true
    · simp [socketChatMessage, h0, mutatesStores] at h
    · by_cases h1 : mapHas st.users a = true ∧ mapHas st.users b = true
      · cases hgA : mapGet st.users a with
        | none => simp [socketChatMessage, h0, h1, hgA, mutatesStores] at h
        | some fu =>
          by_cases hfr : setHas fu.friends b = true
          · simp [socketChatMessage, h0, h1, hgA, hfr, saveToDisk]
          · simp [socketChatMessage, h0, h1, hgA, hfr, mutatesStores] at h
      · simp [socketChatMessage, h0, h1, mutatesStores] at h
  · intro now st h
    by_cases hlen :
        (st.messages.filter (fun m => decide (m.createdAt > now - MESSAGE_TTL_MS))).length ≠
          st.messages.length
    · simp [cleanupOldMessages, hlen, saveToDisk]
    · have hk : st.messages.filter (fun m => decide (m.createdAt > now - MESSAGE_TTL_MS)) =
          st.messages :=
        List.filter_eq_self.mpr (List.filter_length_eq_length.mp (not_not.mp hlen))
      simp [cleanupOldMessages, hlen, hk, mutatesStores] at h
  · intro st c n
    by_cases h0 : n = ""
    · simp [socketRegister, h0]
    · simp [socketRegister, h0]

/-- C3 witness: each conjunct of the amended write-through theorem applied
at a concrete mutating input (and the socket-register conjunct at a
lazy-creating input). -/
theorem writeThrough_amended_witness :
    (register (⟨[], [], [], 0⟩ : ServerState) "a" "pw").1.saves = 1 ∧
    (requestFriendship freshPairState "a" "b").1.saves = 1 ∧
    (acceptFriendship acceptState "a" "b").1.saves = 1 ∧
    (directAdd freshPairState "a" "b").1.saves = 1 ∧
    (sendMessage mutualPairState "a" "b" "hi" 0 "r").1.saves = 1 ∧
    (socketChatMessage mutualPairState "a" "b" "hi" none 0 "r").saves = 1 ∧
    (cleanupOldMessages MESSAGE_TTL_MS boundaryState).saves = 1 ∧
    (socketRegister (⟨[], [], [], 0⟩ : ServerState) ⟨1, none⟩ "carol").1.saves = 0 :=
  ⟨writeThrough_amended.1 _ "a" "pw" (by decide),
   writeThrough_amended.2.1 freshPairState "a" "b" (by decide),
   writeThrough_amended.2.2.1 acceptState "a" "b" (by decide),
   writeThrough_amended.2.2.2.1 freshPairState "a" "b" (by decide),
   writeThrough_amended.2.2.2.2.1 mutualPairState "a" "b" "hi" 0 "r" (by decide),
   writeThrough_amended.2.2.2.2.2.1 mutualPairState "a" "b" "hi" none 0 "r" (by decide),
   writeThrough_amended.2.2.2.2.2.2.1 MESSAGE_TTL_MS boundaryState (by decide),
   writeThrough_amended.2.2.2.2.2.2.2 _ ⟨1, none⟩ "carol"⟩

end Odali
